import Mathlib

/-!
Shallow embedding of `src/token/program-2022/src/extension/transfer_fee/processor.rs`.

Machine integers (`u64`, `u16`) are modelled as `Nat` together with explicit
bounds (`U64_MAX`) where overflow or saturation matters.  Each processor
function is modelled as a pure function from the state it mutates to a pair of
the returned `ProgramResult` and the final state of that mutable data: the Rust
code mutates account buffers in place through `RefCell` borrows, so an early
`Err` return leaves every mutation already performed in place, and the model
mirrors that by returning the state as mutated up to the point of the error.
-/

namespace TransferFeeProcessor

/-- `u64::MAX`, the largest value of the epoch / amount type. -/
def U64_MAX : Nat := 2 ^ 64 - 1

/-- `MAX_FEE_BASIS_POINTS` from the transfer-fee extension definitions. -/
def MAX_FEE_BASIS_POINTS : Nat := 10000

/-- Public keys are modelled abstractly; only equality is used. -/
abbrev Pubkey := Nat

/-- `u64::checked_add`: `some` of the sum when it fits in 64 bits, else `none`. -/
def checked_add (a b : Nat) : Option Nat :=
  if a + b ≤ U64_MAX then some (a + b) else none

/-- `u64::saturating_add`: the sum, clamped to `u64::MAX`. -/
def saturating_add (a b : Nat) : Nat :=
  min (a + b) U64_MAX

/-- The `TransferFee` record: one fee version tagged with its activation epoch
(`epoch`, `transfer_fee_basis_points`, `maximum_fee` are `u64`/`u16`/`u64`). -/
structure TransferFee where
  epoch : Nat
  transfer_fee_basis_points : Nat
  maximum_fee : Nat
deriving DecidableEq, Repr

/-- The mint-side `TransferFeeConfig` extension: optional authorities, the
aggregate withheld amount, and the two-slot fee schedule. -/
structure TransferFeeConfig where
  transfer_fee_config_authority : Option Pubkey
  withdraw_withheld_authority : Option Pubkey
  withheld_amount : Nat
  older_transfer_fee : TransferFee
  newer_transfer_fee : TransferFee
deriving DecidableEq, Repr

/-- The `TokenError` variants reachable from this processor.
`ExtensionAlreadyInitialized` stands for the unpack/init failure of
`unpack_uninitialized`/`init_extension` on a mint that already carries the
extension, and `OwnerMismatch` for a `Processor::validate_owner` failure. -/
inductive TokenError where
  | MintMismatch
  | InvalidState
  | Overflow
  | NoAuthorityExists
  | TransferFeeExceedsMaximum
  | OwnerMismatch
  | ExtensionAlreadyInitialized
  | IncorrectProgramId
deriving DecidableEq, Repr

/-- `process_initialize_transfer_fee_config`.  The mint's extension region is
modelled as `Option TransferFeeConfig` (`none` = extension absent).  Faithful
to the source order: the extension is allocated (zero-initialized, as Solana
account data is zeroed) and the authority fields and `withheld_amount = 0` are
written BEFORE the `transfer_fee_basis_points > MAX_FEE_BASIS_POINTS` check;
only on success are the two fee-schedule slots written.  `epoch` is the value
read from `Clock::get()`. -/
def process_initialize_transfer_fee_config
    (mint_ext : Option TransferFeeConfig)
    (transfer_fee_config_authority withdraw_withheld_authority : Option Pubkey)
    (transfer_fee_basis_points maximum_fee epoch : Nat) :
    Except TokenError Unit × Option TransferFeeConfig :=
  match mint_ext with
  | some ext => (Except.error TokenError.ExtensionAlreadyInitialized, some ext)
  | none =>
    let ext : TransferFeeConfig :=
      { transfer_fee_config_authority := transfer_fee_config_authority
        withdraw_withheld_authority := withdraw_withheld_authority
        withheld_amount := 0
        older_transfer_fee := ⟨0, 0, 0⟩
        newer_transfer_fee := ⟨0, 0, 0⟩ }
    if transfer_fee_basis_points > MAX_FEE_BASIS_POINTS then
      (Except.error TokenError.TransferFeeExceedsMaximum, some ext)
    else
      let transfer_fee : TransferFee :=
        ⟨epoch, transfer_fee_basis_points, maximum_fee⟩
      (Except.ok (),
        some { ext with
                older_transfer_fee := transfer_fee
                newer_transfer_fee := transfer_fee })

/-- `process_set_transfer_fee`.  `validate_owner_ok` abstracts the external
`Processor::validate_owner` capability (`true` = the supplied authority and
witness accounts validate against the stored config authority); the check on a
missing `transfer_fee_config_authority` happens before it, as in the source.
`epoch` is the value read from `Clock::get()`. -/
def process_set_transfer_fee
    (mint_ext : Option TransferFeeConfig)
    (validate_owner_ok : Bool)
    (transfer_fee_basis_points maximum_fee epoch : Nat) :
    Except TokenError Unit × Option TransferFeeConfig :=
  match mint_ext with
  | none => (Except.error TokenError.InvalidState, none)
  | some ext =>
    match ext.transfer_fee_config_authority with
    | none => (Except.error TokenError.NoAuthorityExists, some ext)
    | some _ =>
      if !validate_owner_ok then
        (Except.error TokenError.OwnerMismatch, some ext)
      else if transfer_fee_basis_points > MAX_FEE_BASIS_POINTS then
        (Except.error TokenError.TransferFeeExceedsMaximum, some ext)
      else
        let next_epoch := saturating_add epoch 1
        let ext1 :=
          if ext.newer_transfer_fee.epoch ≤ epoch then
            { ext with older_transfer_fee := ext.newer_transfer_fee }
          else ext
        let transfer_fee : TransferFee :=
          ⟨next_epoch, transfer_fee_basis_points, maximum_fee⟩
        (Except.ok (), some { ext1 with newer_transfer_fee := transfer_fee })

/-- One holder-account reference as seen by `harvest_from_account`:
`unpack_ok` = the buffer deserializes as a token `Account`;
`mint` = its `base.mint` field;
`owner_ok` = `check_program_account(owner)` passes;
`has_fee_extension` = `get_extension_mut::<TransferFeeAmount>()` succeeds;
`withheld_amount` = the extension's withheld amount. -/
structure TokenAccountInfo where
  unpack_ok : Bool
  mint : Pubkey
  owner_ok : Bool
  has_fee_extension : Bool
  withheld_amount : Nat
deriving DecidableEq, Repr

/-- `harvest_from_account`: checks in source order (deserialize, mint match,
program owner, fee extension), then the checked addition into the mint's
withheld amount followed by zeroing the account's withheld amount.  Returns
the result together with the final mint withheld amount and account state. -/
def harvest_from_account (mint_key : Pubkey) (mint_withheld : Nat)
    (a : TokenAccountInfo) :
    Except TokenError Unit × Nat × TokenAccountInfo :=
  if !a.unpack_ok then
    (Except.error TokenError.InvalidState, mint_withheld, a)
  else if a.mint ≠ mint_key then
    (Except.error TokenError.MintMismatch, mint_withheld, a)
  else if !a.owner_ok then
    (Except.error TokenError.InvalidState, mint_withheld, a)
  else if !a.has_fee_extension then
    (Except.error TokenError.InvalidState, mint_withheld, a)
  else
    match checked_add mint_withheld a.withheld_amount with
    | none => (Except.error TokenError.Overflow, mint_withheld, a)
    | some s => (Except.ok (), s, { a with withheld_amount := 0 })

/-- The loop body of `process_harvest_withheld_tokens_to_mint`: an `Overflow`
from `harvest_from_account` aborts the batch immediately (returning the state
as mutated so far), any other per-account error is logged and skipped. -/
def process_harvest_loop (mint_key : Pubkey) (mint_withheld : Nat) :
    List TokenAccountInfo →
      Except TokenError Unit × Nat × List TokenAccountInfo
  | [] => (Except.ok (), mint_withheld, [])
  | a :: rest =>
    match harvest_from_account mint_key mint_withheld a with
    | (Except.error TokenError.Overflow, w, a1) =>
      (Except.error TokenError.Overflow, w, a1 :: rest)
    | (Except.error _, w, a1) =>
      let r := process_harvest_loop mint_key w rest
      (r.1, r.2.1, a1 :: r.2.2)
    | (Except.ok _, w, a1) =>
      let r := process_harvest_loop mint_key w rest
      (r.1, r.2.1, a1 :: r.2.2)

/-- `process_harvest_withheld_tokens_to_mint`: opens the mint's extension once
(failure if absent), then runs the loop over the supplied accounts. -/
def process_harvest_withheld_tokens_to_mint (mint_key : Pubkey)
    (mint_ext : Option TransferFeeConfig)
    (accounts : List TokenAccountInfo) :
    Except TokenError Unit × Option TransferFeeConfig × List TokenAccountInfo :=
  match mint_ext with
  | none => (Except.error TokenError.InvalidState, none, accounts)
  | some ext =>
    let r := process_harvest_loop mint_key ext.withheld_amount accounts
    (r.1, some { ext with withheld_amount := r.2.1 }, r.2.2)

/-- An account is valid for harvesting when all four per-account checks of
`harvest_from_account` pass. -/
def valid_account (mint_key : Pubkey) (a : TokenAccountInfo) : Bool :=
  a.unpack_ok && (a.mint == mint_key) && a.owner_ok && a.has_fee_extension

/-- Sum of the pre-call withheld amounts of the valid accounts of a batch. -/
def sum_valid (mint_key : Pubkey) : List TokenAccountInfo → Nat
  | [] => 0
  | a :: rest =>
    (if valid_account mint_key a then a.withheld_amount else 0) +
      sum_valid mint_key rest

/-- The per-account effect of a fully successful harvest: a valid account's
withheld amount is zeroed, an invalid account is untouched. -/
def zero_valid (mint_key : Pubkey) (a : TokenAccountInfo) : TokenAccountInfo :=
  if valid_account mint_key a then { a with withheld_amount := 0 } else a

/-- Modelled from the spec: the active-rate selection function
(`active(schedule, epoch) = schedule.newer if schedule.newer.epoch <= epoch
else schedule.older`), whose implementation lives outside this processor
file with the rest of the transfer-fee extension definitions. -/
def active (s : TransferFeeConfig) (epoch : Nat) : TransferFee :=
  if s.newer_transfer_fee.epoch ≤ epoch then s.newer_transfer_fee
  else s.older_transfer_fee

/-- Fee-config states reachable by one successful
`process_initialize_transfer_fee_config` followed by successful
`process_set_transfer_fee` calls observed at non-decreasing clock epochs.
`Reachable e ext` records that the last call happened at clock epoch `e`
(a `u64`, hence bounded by `U64_MAX`). -/
inductive Reachable : Nat → TransferFeeConfig → Prop where
  | init (cfgA wwA : Option Pubkey) (bp mf epoch : Nat)
      (ext : TransferFeeConfig)
      (hep : epoch ≤ U64_MAX)
      (hok : process_initialize_transfer_fee_config none cfgA wwA bp mf epoch =
               (Except.ok (), some ext)) :
      Reachable epoch ext
  | set (e : Nat) (ext : TransferFeeConfig) (v : Bool) (bp mf e2 : Nat)
      (ext2 : TransferFeeConfig)
      (hr : Reachable e ext)
      (hle : e ≤ e2)
      (hep : e2 ≤ U64_MAX)
      (hok : process_set_transfer_fee (some ext) v bp mf e2 =
               (Except.ok (), some ext2)) :
      Reachable e2 ext2

/-- Result of one dispatched instruction: success, a returned `TokenError`,
or the process-aborting panic raised by `unimplemented!()`, which is not a
`ProgramResult` value at all and hence distinct from every error return. -/
inductive ProgramOutcome where
  | success
  | failure (e : TokenError)
  | panicked
deriving DecidableEq, Repr

/-- Converts a `ProgramResult` into the observed outcome. -/
def outcome_of : Except TokenError Unit → ProgramOutcome
  | Except.ok _ => ProgramOutcome.success
  | Except.error e => ProgramOutcome.failure e

/-- The decoded `TransferFeeInstruction` variants. -/
inductive TransferFeeInstruction where
  | InitializeTransferFeeConfig
      (transfer_fee_config_authority withdraw_withheld_authority : Option Pubkey)
      (transfer_fee_basis_points maximum_fee : Nat)
  | TransferCheckedWithFee (amount decimals fee : Nat)
  | WithdrawWithheldTokensFromMint
  | WithdrawWithheldTokensFromAccounts
  | HarvestWithheldTokensToMint
  | SetTransferFee (transfer_fee_basis_points maximum_fee : Nat)
deriving DecidableEq, Repr

/-- The state touched by this processor: the mint (key and extension region)
and the holder accounts supplied after it. -/
structure ProgramState where
  mint_key : Pubkey
  mint_ext : Option TransferFeeConfig
  token_accounts : List TokenAccountInfo
deriving DecidableEq, Repr

/-- `process_instruction`: `check_program_account(program_id)` first
(abstracted as `program_id_ok`), then dispatch.  `process_transfer` abstracts
the external `Processor::process_transfer` routine that
`TransferCheckedWithFee` delegates to; the two withdraw instructions hit
`unimplemented!()` and panic without touching any state. -/
def process_instruction
    (program_id_ok validate_owner_ok : Bool) (epoch : Nat)
    (process_transfer : ProgramState → ProgramOutcome × ProgramState)
    (st : ProgramState) :
    TransferFeeInstruction → ProgramOutcome × ProgramState
  | i =>
    if !program_id_ok then
      (ProgramOutcome.failure TokenError.IncorrectProgramId, st)
    else
      match i with
      | TransferFeeInstruction.InitializeTransferFeeConfig cfgA wwA bp mf =>
        let r := process_initialize_transfer_fee_config st.mint_ext cfgA wwA bp mf epoch
        (outcome_of r.1, { st with mint_ext := r.2 })
      | TransferFeeInstruction.TransferCheckedWithFee _ _ _ =>
        process_transfer st
      | TransferFeeInstruction.WithdrawWithheldTokensFromMint =>
        (ProgramOutcome.panicked, st)
      | TransferFeeInstruction.WithdrawWithheldTokensFromAccounts =>
        (ProgramOutcome.panicked, st)
      | TransferFeeInstruction.HarvestWithheldTokensToMint =>
        let r := process_harvest_withheld_tokens_to_mint st.mint_key st.mint_ext st.token_accounts
        (outcome_of r.1, { st with mint_ext := r.2.1, token_accounts := r.2.2 })
      | TransferFeeInstruction.SetTransferFee bp mf =>
        let r := process_set_transfer_fee st.mint_ext validate_owner_ok bp mf epoch
        (outcome_of r.1, { st with mint_ext := r.2 })

/-! ### Helper lemmas about the harvest loop -/

lemma harvest_from_account_valid (mint_key : Pubkey) (w : Nat)
    (a : TokenAccountInfo) (hv : valid_account mint_key a = true)
    (hadd : w + a.withheld_amount ≤ U64_MAX) :
    harvest_from_account mint_key w a =
      (Except.ok (), w + a.withheld_amount, { a with withheld_amount := 0 }) := by
  unfold valid_account at hv
  simp only [Bool.and_eq_true, beq_iff_eq] at hv
  obtain ⟨⟨⟨h1, h2⟩, h3⟩, h4⟩ := hv
  unfold harvest_from_account checked_add
  simp [h1, h2, h3, h4, hadd]

lemma harvest_from_account_overflow (mint_key : Pubkey) (w : Nat)
    (a : TokenAccountInfo) (hv : valid_account mint_key a = true)
    (hadd : U64_MAX < w + a.withheld_amount) :
    harvest_from_account mint_key w a =
      (Except.error TokenError.Overflow, w, a) := by
  unfold valid_account at hv
  simp only [Bool.and_eq_true, beq_iff_eq] at hv
  obtain ⟨⟨⟨h1, h2⟩, h3⟩, h4⟩ := hv
  unfold harvest_from_account checked_add
  simp [h1, h2, h3, h4, Nat.not_le.mpr hadd]

lemma harvest_from_account_invalid (mint_key : Pubkey) (w : Nat)
    (a : TokenAccountInfo) (hv : valid_account mint_key a = false) :
    ∃ e, e ≠ TokenError.Overflow ∧
      harvest_from_account mint_key w a = (Except.error e, w, a) := by
  unfold valid_account at hv
  unfold harvest_from_account
  by_cases h1 : a.unpack_ok
  · by_cases h2 : a.mint = mint_key
    · by_cases h3 : a.owner_ok
      · by_cases h4 : a.has_fee_extension
        · simp [h1, h2, h3, h4] at hv
        · exact ⟨TokenError.InvalidState, by simp, by simp [h1, h2, h3, h4]⟩
      · exact ⟨TokenError.InvalidState, by simp, by simp [h1, h2, h3]⟩
    · exact ⟨TokenError.MintMismatch, by simp, by simp [h1, h2]⟩
  · exact ⟨TokenError.InvalidState, by simp, by simp [h1]⟩

lemma process_harvest_loop_cons_valid (mint_key : Pubkey) (w : Nat)
    (a : TokenAccountInfo) (rest : List TokenAccountInfo)
    (hv : valid_account mint_key a = true)
    (hadd : w + a.withheld_amount ≤ U64_MAX) :
    process_harvest_loop mint_key w (a :: rest) =
      ((process_harvest_loop mint_key (w + a.withheld_amount) rest).1,
       (process_harvest_loop mint_key (w + a.withheld_amount) rest).2.1,
       { a with withheld_amount := 0 } ::
         (process_harvest_loop mint_key (w + a.withheld_amount) rest).2.2) := by
  simp only [process_harvest_loop, harvest_from_account_valid mint_key w a hv hadd]

lemma process_harvest_loop_cons_overflow (mint_key : Pubkey) (w : Nat)
    (a : TokenAccountInfo) (rest : List TokenAccountInfo)
    (hv : valid_account mint_key a = true)
    (hadd : U64_MAX < w + a.withheld_amount) :
    process_harvest_loop mint_key w (a :: rest) =
      (Except.error TokenError.Overflow, w, a :: rest) := by
  simp only [process_harvest_loop, harvest_from_account_overflow mint_key w a hv hadd]

lemma process_harvest_loop_cons_invalid (mint_key : Pubkey) (w : Nat)
    (a : TokenAccountInfo) (rest : List TokenAccountInfo)
    (hv : valid_account mint_key a = false) :
    process_harvest_loop mint_key w (a :: rest) =
      ((process_harvest_loop mint_key w rest).1,
       (process_harvest_loop mint_key w rest).2.1,
       a :: (process_harvest_loop mint_key w rest).2.2) := by
  obtain ⟨e, he, heq⟩ := harvest_from_account_invalid mint_key w a hv
  cases e <;>
    first
      | exact absurd rfl he
      | simp only [process_harvest_loop, heq]

/-- Master lemma: a harvest batch whose valid withheld amounts all fit into
the mint total succeeds, accumulates exactly the valid sum, and zeroes exactly
the valid accounts. -/
lemma process_harvest_loop_ok (mint_key : Pubkey) (w : Nat)
    (l : List TokenAccountInfo)
    (h : w + sum_valid mint_key l ≤ U64_MAX) :
    process_harvest_loop mint_key w l =
      (Except.ok (), w + sum_valid mint_key l,
       l.map (zero_valid mint_key)) := by
  induction l generalizing w with
  | nil => simp [process_harvest_loop, sum_valid]
  | cons a rest ih =>
    by_cases hv : valid_account mint_key a
    · have hs : sum_valid mint_key (a :: rest) =
          a.withheld_amount + sum_valid mint_key rest := by
        simp [sum_valid, hv]
      rw [hs] at h ⊢
      have hadd : w + a.withheld_amount ≤ U64_MAX := by omega
      rw [process_harvest_loop_cons_valid mint_key w a rest hv hadd,
        ih (w + a.withheld_amount) (by omega)]
      simp [zero_valid, hv]
      omega
    · have hv' : valid_account mint_key a = false := by
        simpa using hv
      have hs : sum_valid mint_key (a :: rest) = sum_valid mint_key rest := by
        simp [sum_valid, hv']
      rw [hs] at h ⊢
      rw [process_harvest_loop_cons_invalid mint_key w a rest hv',
        ih w h]
      simp [zero_valid, hv']

/-- Master lemma: a harvest batch that overflows exactly at the valid account
`a` aborts there with `Overflow`, keeping the mint total accumulated over the
earlier part of the batch, that part's zeroing committed, and `a` and every
later account untouched. -/
lemma process_harvest_loop_overflow_at (mint_key : Pubkey) (w : Nat)
    (pre post : List TokenAccountInfo) (a : TokenAccountInfo)
    (hpre : w + sum_valid mint_key pre ≤ U64_MAX)
    (hv : valid_account mint_key a = true)
    (hovf : U64_MAX < w + sum_valid mint_key pre + a.withheld_amount) :
    process_harvest_loop mint_key w (pre ++ a :: post) =
      (Except.error TokenError.Overflow, w + sum_valid mint_key pre,
       pre.map (zero_valid mint_key) ++ a :: post) := by
  induction pre generalizing w with
  | nil =>
    simp only [sum_valid, Nat.add_zero] at hovf ⊢
    simpa using process_harvest_loop_cons_overflow mint_key w a post hv hovf
  | cons b pre' ih =>
    by_cases hvb : valid_account mint_key b
    · have hs : sum_valid mint_key (b :: pre') =
          b.withheld_amount + sum_valid mint_key pre' := by
        simp [sum_valid, hvb]
      rw [hs] at hpre hovf ⊢
      have haddb : w + b.withheld_amount ≤ U64_MAX := by omega
      rw [List.cons_append,
        process_harvest_loop_cons_valid mint_key w b (pre' ++ a :: post) hvb haddb,
        ih (w + b.withheld_amount) (by omega) (by omega)]
      simp [zero_valid, hvb]
      omega
    · have hvb' : valid_account mint_key b = false := by simpa using hvb
      have hs : sum_valid mint_key (b :: pre') = sum_valid mint_key pre' := by
        simp [sum_valid, hvb']
      rw [hs] at hpre hovf ⊢
      rw [List.cons_append,
        process_harvest_loop_cons_invalid mint_key w b (pre' ++ a :: post) hvb',
        ih w hpre hovf]
      simp [zero_valid, hvb']

lemma sum_valid_append (mint_key : Pubkey) (l1 l2 : List TokenAccountInfo) :
    sum_valid mint_key (l1 ++ l2) =
      sum_valid mint_key l1 + sum_valid mint_key l2 := by
  induction l1 with
  | nil => simp [sum_valid]
  | cons a l ih =>
    simp only [List.cons_append, sum_valid, List.append_eq] at ih ⊢
    rw [ih]
    omega

/-! ### Helper lemmas about the fee-config controller -/

/-- Inversion of a successful `process_set_transfer_fee`: the output config is
exactly the rollover of the input at the observed epoch, all non-schedule
fields unchanged. -/
lemma process_set_transfer_fee_ok_elim (ext ext2 : TransferFeeConfig)
    (v : Bool) (bp mf epoch : Nat)
    (hok : process_set_transfer_fee (some ext) v bp mf epoch =
             (Except.ok (), some ext2)) :
    ext2 = { transfer_fee_config_authority := ext.transfer_fee_config_authority
             withdraw_withheld_authority := ext.withdraw_withheld_authority
             withheld_amount := ext.withheld_amount
             older_transfer_fee :=
               if ext.newer_transfer_fee.epoch ≤ epoch then ext.newer_transfer_fee
               else ext.older_transfer_fee
             newer_transfer_fee :=
               ⟨saturating_add epoch 1, bp, mf⟩ } ∧
    bp ≤ MAX_FEE_BASIS_POINTS ∧ v = true ∧
    ext.transfer_fee_config_authority ≠ none := by
  cases hauth : ext.transfer_fee_config_authority with
  | none => simp [process_set_transfer_fee, hauth] at hok
  | some p =>
    cases v with
    | false => simp [process_set_transfer_fee, hauth] at hok
    | true =>
      by_cases hbp : bp > MAX_FEE_BASIS_POINTS
      · simp [process_set_transfer_fee, hauth, hbp] at hok
      · by_cases hcond : ext.newer_transfer_fee.epoch ≤ epoch
        · simp [process_set_transfer_fee, hauth, hbp, hcond] at hok
          exact ⟨by simp [hcond, ← hok], by omega, rfl, by simp [hauth]⟩
        · simp [process_set_transfer_fee, hauth, hbp, hcond] at hok
          exact ⟨by simp [hcond, ← hok], by omega, rfl, by simp [hauth]⟩

/-- Inversion of a successful `process_initialize_transfer_fee_config`: it
only succeeds on an extension-free mint with an in-bound fee, and writes the
two identical schedule slots, zero withheld amount, and the two authorities. -/
lemma process_initialize_ok_elim (mint_ext : Option TransferFeeConfig)
    (cfgA wwA : Option Pubkey) (bp mf epoch : Nat) (ext : TransferFeeConfig)
    (hok : process_initialize_transfer_fee_config mint_ext cfgA wwA bp mf epoch =
             (Except.ok (), some ext)) :
    mint_ext = none ∧ bp ≤ MAX_FEE_BASIS_POINTS ∧
    ext = { transfer_fee_config_authority := cfgA
            withdraw_withheld_authority := wwA
            withheld_amount := 0
            older_transfer_fee := ⟨epoch, bp, mf⟩
            newer_transfer_fee := ⟨epoch, bp, mf⟩ } := by
  cases mint_ext with
  | some e => simp [process_initialize_transfer_fee_config] at hok
  | none =>
    by_cases hbp : bp > MAX_FEE_BASIS_POINTS
    · simp [process_initialize_transfer_fee_config, hbp] at hok
    · simp [process_initialize_transfer_fee_config, hbp] at hok
      exact ⟨rfl, by omega, hok.symm⟩

/-- Auxiliary invariant carried along reachable fee-config states: the
schedule epochs are ordered and the newer epoch never exceeds the saturated
successor of the epoch of the last call. -/
lemma reachable_epoch_bounds (e : Nat) (ext : TransferFeeConfig)
    (h : Reachable e ext) :
    ext.older_transfer_fee.epoch ≤ ext.newer_transfer_fee.epoch ∧
    ext.newer_transfer_fee.epoch ≤ saturating_add e 1 ∧ e ≤ U64_MAX := by
  induction h with
  | init cfgA wwA bp mf epoch ext hep hok =>
    obtain ⟨-, -, hext⟩ :=
      process_initialize_ok_elim none cfgA wwA bp mf epoch ext hok
    subst hext
    simp [saturating_add]
    omega
  | set e ext v bp mf e2 ext2 hr hle hep hok ih =>
    obtain ⟨hext, -, -, -⟩ :=
      process_set_transfer_fee_ok_elim ext ext2 v bp mf e2 hok
    subst hext
    obtain ⟨ih1, ih2, ih3⟩ := ih
    by_cases hcond : ext.newer_transfer_fee.epoch ≤ e2
    · simp only [hcond, if_true, saturating_add] at *
      simp
      omega
    · simp only [hcond, if_false, saturating_add] at *
      simp
      omega

/-! ### Claim theorems -/

/-- C1: for every Harvest batch in which no checked addition overflows (the
mint's withheld amount plus the sum of the valid accounts' withheld amounts
fits in `u64`), the mint's `withheld_amount` increases by exactly the sum of
the pre-call withheld amounts of the valid accounts, every valid account's
`withheld_amount` is exactly 0 afterwards, invalid accounts contribute
nothing and are untouched, and the call returns success. -/
theorem harvest_batch_conservation (mint_key : Pubkey)
    (ext : TransferFeeConfig) (accounts : List TokenAccountInfo)
    (h : ext.withheld_amount + sum_valid mint_key accounts ≤ U64_MAX) :
    process_harvest_withheld_tokens_to_mint mint_key (some ext) accounts =
      (Except.ok (),
       some { ext with withheld_amount :=
                ext.withheld_amount + sum_valid mint_key accounts },
       accounts.map (zero_valid mint_key)) := by
  simp only [process_harvest_withheld_tokens_to_mint,
    process_harvest_loop_ok mint_key ext.withheld_amount accounts h]

/-- Witness for C1 at a concrete mixed batch: two valid accounts (5 and 3
withheld) and one with a foreign mint (7 withheld). -/
theorem harvest_batch_conservation_witness :
    (10 : Nat) + sum_valid 1 [⟨true, 1, true, true, 5⟩, ⟨true, 2, true, true, 7⟩,
        ⟨true, 1, true, true, 3⟩] ≤ U64_MAX ∧
    process_harvest_withheld_tokens_to_mint 1
        (some ⟨some 7, none, 10, ⟨0, 0, 0⟩, ⟨0, 0, 0⟩⟩)
        [⟨true, 1, true, true, 5⟩, ⟨true, 2, true, true, 7⟩,
          ⟨true, 1, true, true, 3⟩] =
      (Except.ok (), some ⟨some 7, none, 18, ⟨0, 0, 0⟩, ⟨0, 0, 0⟩⟩,
       [⟨true, 1, true, true, 0⟩, ⟨true, 2, true, true, 7⟩,
         ⟨true, 1, true, true, 0⟩]) := by
  refine ⟨by decide, ?_⟩
  rw [harvest_batch_conservation 1 ⟨some 7, none, 10, ⟨0, 0, 0⟩, ⟨0, 0, 0⟩⟩ _
    (by decide)]
  rfl

/-- C2: if during Harvest the checked addition of the mint's withheld amount
and a valid account's withheld amount overflows, the call fails immediately
with `Overflow`; the mint keeps the value it had just before that addition
(the initial amount plus what the earlier part of the batch contributed), the
overflowing account and every later account are untouched, and the zeroing
already committed for earlier accounts is retained, not rolled back. -/
theorem harvest_overflow_abort (mint_key : Pubkey) (ext : TransferFeeConfig)
    (pre post : List TokenAccountInfo) (a : TokenAccountInfo)
    (hpre : ext.withheld_amount + sum_valid mint_key pre ≤ U64_MAX)
    (hv : valid_account mint_key a = true)
    (hovf : U64_MAX <
      ext.withheld_amount + sum_valid mint_key pre + a.withheld_amount) :
    process_harvest_withheld_tokens_to_mint mint_key (some ext)
        (pre ++ a :: post) =
      (Except.error TokenError.Overflow,
       some { ext with withheld_amount :=
                ext.withheld_amount + sum_valid mint_key pre },
       pre.map (zero_valid mint_key) ++ a :: post) := by
  simp only [process_harvest_withheld_tokens_to_mint,
    process_harvest_loop_overflow_at mint_key ext.withheld_amount pre post a
      hpre hv hovf]

/-- Witness for C2: the mint holds `u64::MAX - 2`; the first account (1
withheld) is harvested, the second (9 withheld) overflows and aborts, the
third (5 withheld) is left unprocessed. -/
theorem harvest_overflow_abort_witness :
    (U64_MAX - 2) + sum_valid 1 [⟨true, 1, true, true, 1⟩] ≤ U64_MAX ∧
    valid_account 1 ⟨true, 1, true, true, 9⟩ = true ∧
    U64_MAX < (U64_MAX - 2) + sum_valid 1 [⟨true, 1, true, true, 1⟩] + 9 ∧
    process_harvest_withheld_tokens_to_mint 1
        (some ⟨some 7, none, U64_MAX - 2, ⟨0, 0, 0⟩, ⟨0, 0, 0⟩⟩)
        [⟨true, 1, true, true, 1⟩, ⟨true, 1, true, true, 9⟩,
          ⟨true, 1, true, true, 5⟩] =
      (Except.error TokenError.Overflow,
       some ⟨some 7, none, U64_MAX - 1, ⟨0, 0, 0⟩, ⟨0, 0, 0⟩⟩,
       [⟨true, 1, true, true, 0⟩, ⟨true, 1, true, true, 9⟩,
         ⟨true, 1, true, true, 5⟩]) := by
  refine ⟨by decide, by decide, by decide, ?_⟩
  rw [show ([⟨true, 1, true, true, 1⟩, ⟨true, 1, true, true, 9⟩,
      ⟨true, 1, true, true, 5⟩] : List TokenAccountInfo) =
      [⟨true, 1, true, true, 1⟩] ++ ⟨true, 1, true, true, 9⟩ ::
        [⟨true, 1, true, true, 5⟩] from rfl,
    harvest_overflow_abort 1 ⟨some 7, none, U64_MAX - 2, ⟨0, 0, 0⟩, ⟨0, 0, 0⟩⟩
      [⟨true, 1, true, true, 1⟩] [⟨true, 1, true, true, 5⟩]
      ⟨true, 1, true, true, 9⟩ (by decide) (by decide) (by decide)]
  rfl

/-- C3: a successful SetFee observed at epoch `E` produces exactly the
rollover of the schedule: `older` becomes the previous `newer` when
`newer.epoch <= E` and is unchanged otherwise (a pending `newer` is
discarded), `newer` becomes the requested rate at the saturated successor
epoch, and no other field of the fee config changes. -/
theorem set_transfer_fee_rollover (ext ext2 : TransferFeeConfig) (v : Bool)
    (transfer_fee_basis_points maximum_fee epoch : Nat)
    (hok : process_set_transfer_fee (some ext) v transfer_fee_basis_points
             maximum_fee epoch = (Except.ok (), some ext2)) :
    ext2 = { transfer_fee_config_authority := ext.transfer_fee_config_authority
             withdraw_withheld_authority := ext.withdraw_withheld_authority
             withheld_amount := ext.withheld_amount
             older_transfer_fee :=
               if ext.newer_transfer_fee.epoch ≤ epoch then
                 ext.newer_transfer_fee
               else ext.older_transfer_fee
             newer_transfer_fee :=
               ⟨saturating_add epoch 1, transfer_fee_basis_points,
                 maximum_fee⟩ } :=
  (process_set_transfer_fee_ok_elim ext ext2 v transfer_fee_basis_points
    maximum_fee epoch hok).1

/-- Witness for C3: a SetFee at epoch 4 over a schedule whose newer entry is
already active shifts it down and installs the new rate at epoch 5. -/
theorem set_transfer_fee_rollover_witness :
    process_set_transfer_fee (some ⟨some 7, none, 0, ⟨0, 100, 0⟩, ⟨0, 100, 0⟩⟩)
        true 200 9 4 =
      (Except.ok (), some ⟨some 7, none, 0, ⟨0, 100, 0⟩, ⟨5, 200, 9⟩⟩) ∧
    (⟨some 7, none, 0, ⟨0, 100, 0⟩, ⟨5, 200, 9⟩⟩ : TransferFeeConfig) =
      { transfer_fee_config_authority :=
          (⟨some 7, none, 0, ⟨0, 100, 0⟩, ⟨0, 100, 0⟩⟩ :
            TransferFeeConfig).transfer_fee_config_authority
        withdraw_withheld_authority :=
          (⟨some 7, none, 0, ⟨0, 100, 0⟩, ⟨0, 100, 0⟩⟩ :
            TransferFeeConfig).withdraw_withheld_authority
        withheld_amount :=
          (⟨some 7, none, 0, ⟨0, 100, 0⟩, ⟨0, 100, 0⟩⟩ :
            TransferFeeConfig).withheld_amount
        older_transfer_fee :=
          if (⟨some 7, none, 0, ⟨0, 100, 0⟩, ⟨0, 100, 0⟩⟩ :
              TransferFeeConfig).newer_transfer_fee.epoch ≤ 4 then
            (⟨some 7, none, 0, ⟨0, 100, 0⟩, ⟨0, 100, 0⟩⟩ :
              TransferFeeConfig).newer_transfer_fee
          else
            (⟨some 7, none, 0, ⟨0, 100, 0⟩, ⟨0, 100, 0⟩⟩ :
              TransferFeeConfig).older_transfer_fee
        newer_transfer_fee := ⟨saturating_add 4 1, 200, 9⟩ } :=
  ⟨rfl, set_transfer_fee_rollover ⟨some 7, none, 0, ⟨0, 100, 0⟩, ⟨0, 100, 0⟩⟩
    ⟨some 7, none, 0, ⟨0, 100, 0⟩, ⟨5, 200, 9⟩⟩ true 200 9 4 rfl⟩

/-- C4 (counterexample): an InitializeFeeConfig with
`basis_points = 10001 > MAX_FEE_BASIS_POINTS` on a fresh mint does fail with
`TransferFeeExceedsMaximum`, but it does NOT leave the mint buffer unchanged:
the call has already allocated the extension and written both authority
fields and a zero `withheld_amount` before the bound check runs. -/
theorem initialize_fee_bound_counterexample :
    (process_initialize_transfer_fee_config none (some 7) (some 8)
        10001 5 3).1 = Except.error TokenError.TransferFeeExceedsMaximum ∧
    (process_initialize_transfer_fee_config none (some 7) (some 8)
        10001 5 3).2 =
      some { transfer_fee_config_authority := some 7
             withdraw_withheld_authority := some 8
             withheld_amount := 0
             older_transfer_fee := ⟨0, 0, 0⟩
             newer_transfer_fee := ⟨0, 0, 0⟩ } ∧
    (process_initialize_transfer_fee_config none (some 7) (some 8)
        10001 5 3).2 ≠ none :=
  ⟨rfl, rfl, by decide⟩

/-- C4 (amended): InitializeFeeConfig with
`basis_points > MAX_FEE_BASIS_POINTS` on a fresh mint fails with the
`TransferFeeExceedsMaximum` error for every choice of the other parameters,
but only after allocating the extension and writing the authority fields and
a zero `withheld_amount`; the two fee-schedule slots are left zeroed (the
enclosing runtime is what discards these writes when the instruction
errors). -/
theorem initialize_fee_bound_amended (cfgA wwA : Option Pubkey)
    (transfer_fee_basis_points maximum_fee epoch : Nat)
    (h : MAX_FEE_BASIS_POINTS < transfer_fee_basis_points) :
    process_initialize_transfer_fee_config none cfgA wwA
        transfer_fee_basis_points maximum_fee epoch =
      (Except.error TokenError.TransferFeeExceedsMaximum,
       some { transfer_fee_config_authority := cfgA
              withdraw_withheld_authority := wwA
              withheld_amount := 0
              older_transfer_fee := ⟨0, 0, 0⟩
              newer_transfer_fee := ⟨0, 0, 0⟩ }) := by
  simp [process_initialize_transfer_fee_config, h]

/-- Witness for the amended C4 at `basis_points = 10001`. -/
theorem initialize_fee_bound_amended_witness :
    MAX_FEE_BASIS_POINTS < 10001 ∧
    process_initialize_transfer_fee_config none (some 7) (some 8)
        10001 5 3 =
      (Except.error TokenError.TransferFeeExceedsMaximum,
       some { transfer_fee_config_authority := some 7
              withdraw_withheld_authority := some 8
              withheld_amount := 0
              older_transfer_fee := ⟨0, 0, 0⟩
              newer_transfer_fee := ⟨0, 0, 0⟩ }) :=
  ⟨by decide, initialize_fee_bound_amended (some 7) (some 8) 10001 5 3
    (by decide)⟩

/-- C5: `older.epoch <= newer.epoch` holds after every successful
InitializeFeeConfig and is preserved by every successful SetFee, along every
sequence of such calls observed at non-decreasing clock epochs. -/
theorem schedule_epoch_invariant (e : Nat) (ext : TransferFeeConfig)
    (h : Reachable e ext) :
    ext.older_transfer_fee.epoch ≤ ext.newer_transfer_fee.epoch :=
  (reachable_epoch_bounds e ext h).1

/-- Witness for C5: a state reached by an init at epoch 3 followed by a
SetFee at epoch 4. -/
theorem schedule_epoch_invariant_witness :
    Reachable 4 ⟨some 7, none, 0, ⟨3, 100, 0⟩, ⟨5, 200, 9⟩⟩ ∧
    (⟨some 7, none, 0, ⟨3, 100, 0⟩, ⟨5, 200, 9⟩⟩ :
        TransferFeeConfig).older_transfer_fee.epoch ≤
      (⟨some 7, none, 0, ⟨3, 100, 0⟩, ⟨5, 200, 9⟩⟩ :
        TransferFeeConfig).newer_transfer_fee.epoch := by
  have hr : Reachable 4 ⟨some 7, none, 0, ⟨3, 100, 0⟩, ⟨5, 200, 9⟩⟩ :=
    Reachable.set 3 ⟨some 7, none, 0, ⟨3, 100, 0⟩, ⟨3, 100, 0⟩⟩ true 200 9 4
      ⟨some 7, none, 0, ⟨3, 100, 0⟩, ⟨5, 200, 9⟩⟩
      (Reachable.init (some 7) none 100 0 3
        ⟨some 7, none, 0, ⟨3, 100, 0⟩, ⟨3, 100, 0⟩⟩ (by decide) rfl)
      (by decide) (by decide) rfl
  exact ⟨hr, schedule_epoch_invariant 4 _ hr⟩

/-- C6: a per-account failure other than Overflow is skipped: in an
overflow-free batch split as `pre ++ b :: post` around an invalid account
`b`, the call still returns success, `b` is untouched and contributes nothing
to the mint, and every valid account of `pre` and `post` is fully
harvested. -/
theorem harvest_per_account_isolation (mint_key : Pubkey)
    (ext : TransferFeeConfig) (pre post : List TokenAccountInfo)
    (b : TokenAccountInfo)
    (hb : valid_account mint_key b = false)
    (h : ext.withheld_amount +
      (sum_valid mint_key pre + sum_valid mint_key post) ≤ U64_MAX) :
    process_harvest_withheld_tokens_to_mint mint_key (some ext)
        (pre ++ b :: post) =
      (Except.ok (),
       some { ext with withheld_amount := ext.withheld_amount +
                (sum_valid mint_key pre + sum_valid mint_key post) },
       pre.map (zero_valid mint_key) ++ b :: post.map (zero_valid mint_key)) := by
  have hsum : sum_valid mint_key (pre ++ b :: post) =
      sum_valid mint_key pre + sum_valid mint_key post := by
    rw [sum_valid_append]
    simp [sum_valid, hb]
  have h2 : ext.withheld_amount + sum_valid mint_key (pre ++ b :: post) ≤
      U64_MAX := by
    rw [hsum]; omega
  simp only [process_harvest_withheld_tokens_to_mint,
    process_harvest_loop_ok mint_key ext.withheld_amount (pre ++ b :: post) h2,
    hsum]
  simp [zero_valid, hb]

/-- Witness for C6, the instance named by the claim: one mismatched-mint
account between two valid accounts; both valid accounts are fully harvested
and the mismatched one is untouched. -/
theorem harvest_per_account_isolation_witness :
    valid_account 1 ⟨true, 2, true, true, 7⟩ = false ∧
    (10 : Nat) + (sum_valid 1 [⟨true, 1, true, true, 5⟩] +
      sum_valid 1 [⟨true, 1, true, true, 3⟩]) ≤ U64_MAX ∧
    process_harvest_withheld_tokens_to_mint 1
        (some ⟨some 7, none, 10, ⟨0, 0, 0⟩, ⟨0, 0, 0⟩⟩)
        [⟨true, 1, true, true, 5⟩, ⟨true, 2, true, true, 7⟩,
          ⟨true, 1, true, true, 3⟩] =
      (Except.ok (), some ⟨some 7, none, 18, ⟨0, 0, 0⟩, ⟨0, 0, 0⟩⟩,
       [⟨true, 1, true, true, 0⟩, ⟨true, 2, true, true, 7⟩,
         ⟨true, 1, true, true, 0⟩]) := by
  refine ⟨by decide, by decide, ?_⟩
  rw [show ([⟨true, 1, true, true, 5⟩, ⟨true, 2, true, true, 7⟩,
      ⟨true, 1, true, true, 3⟩] : List TokenAccountInfo) =
      [⟨true, 1, true, true, 5⟩] ++ ⟨true, 2, true, true, 7⟩ ::
        [⟨true, 1, true, true, 3⟩] from rfl,
    harvest_per_account_isolation 1 ⟨some 7, none, 10, ⟨0, 0, 0⟩, ⟨0, 0, 0⟩⟩
      [⟨true, 1, true, true, 5⟩] [⟨true, 1, true, true, 3⟩]
      ⟨true, 2, true, true, 7⟩ (by decide) (by decide)]
  rfl

/-- C7 (counterexample): the schedule
`older = {epoch 0, 100 bp}, newer = {epoch 5, 200 bp}` is reachable (init at
epoch 0 with 100 bp, SetFee at epoch 4 to 200 bp); a successful SetFee at
epoch `E = 10` then changes `active(schedule, 3)` — an epoch with
`3 <= 10` — from the 100 bp rate to the 200 bp rate, because the rollover
overwrites the `older` slot.  So a SetFee CAN change the active rate
retroactively for epochs before `newer.epoch`. -/
theorem set_fee_retroactive_counterexample :
    Reachable 4 ⟨some 7, none, 0, ⟨0, 100, 0⟩, ⟨5, 200, 0⟩⟩ ∧
    process_set_transfer_fee
        (some ⟨some 7, none, 0, ⟨0, 100, 0⟩, ⟨5, 200, 0⟩⟩) true 300 0 10 =
      (Except.ok (), some ⟨some 7, none, 0, ⟨5, 200, 0⟩, ⟨11, 300, 0⟩⟩) ∧
    (3 : Nat) ≤ 10 ∧
    active ⟨some 7, none, 0, ⟨0, 100, 0⟩, ⟨5, 200, 0⟩⟩ 3 ≠
      active ⟨some 7, none, 0, ⟨5, 200, 0⟩, ⟨11, 300, 0⟩⟩ 3 := by
  refine ⟨?_, rfl, by decide, by decide⟩
  exact Reachable.set 0 ⟨some 7, none, 0, ⟨0, 100, 0⟩, ⟨0, 100, 0⟩⟩ true 200 0 4
    ⟨some 7, none, 0, ⟨0, 100, 0⟩, ⟨5, 200, 0⟩⟩
    (Reachable.init (some 7) none 100 0 0
      ⟨some 7, none, 0, ⟨0, 100, 0⟩, ⟨0, 100, 0⟩⟩ (by decide) rfl)
    (by decide) (by decide) rfl

/-- C7 (amended): a successful SetFee observed at current epoch `E` (with `E`
below the saturation point `u64::MAX`) never changes `active(schedule, E2)`
for any epoch `E2` with `schedule.newer.epoch <= E2 <= E`, i.e. for every
epoch at which the currently newer rate had already activated; for earlier
epochs (served by the `older` slot) the value can change, as the rollover
overwrites `older`. -/
theorem set_fee_no_retroactive_change_amended (s s2 : TransferFeeConfig)
    (v : Bool) (bp mf E E2 : Nat)
    (hE : E < U64_MAX)
    (hok : process_set_transfer_fee (some s) v bp mf E =
             (Except.ok (), some s2))
    (hlow : s.newer_transfer_fee.epoch ≤ E2) (hhigh : E2 ≤ E) :
    active s2 E2 = active s E2 := by
  obtain ⟨hext, -, -, -⟩ := process_set_transfer_fee_ok_elim s s2 v bp mf E hok
  subst hext
  have hcond : s.newer_transfer_fee.epoch ≤ E := le_trans hlow hhigh
  have hgt : ¬ saturating_add E 1 ≤ E2 := by
    simp only [saturating_add]
    omega
  simp [active, hcond, hlow, hgt]

/-- Witness for the amended C7: SetFee at epoch 10 over a schedule whose
newer rate activated at epoch 5 leaves `active` at epoch 7 unchanged. -/
theorem set_fee_no_retroactive_change_amended_witness :
    (10 : Nat) < U64_MAX ∧
    process_set_transfer_fee
        (some ⟨some 7, none, 0, ⟨0, 100, 0⟩, ⟨5, 200, 0⟩⟩) true 300 0 10 =
      (Except.ok (), some ⟨some 7, none, 0, ⟨5, 200, 0⟩, ⟨11, 300, 0⟩⟩) ∧
    (⟨some 7, none, 0, ⟨0, 100, 0⟩, ⟨5, 200, 0⟩⟩ :
        TransferFeeConfig).newer_transfer_fee.epoch ≤ 7 ∧
    (7 : Nat) ≤ 10 ∧
    active ⟨some 7, none, 0, ⟨5, 200, 0⟩, ⟨11, 300, 0⟩⟩ 7 =
      active ⟨some 7, none, 0, ⟨0, 100, 0⟩, ⟨5, 200, 0⟩⟩ 7 :=
  ⟨by decide, rfl, by decide, by decide,
    set_fee_no_retroactive_change_amended
      ⟨some 7, none, 0, ⟨0, 100, 0⟩, ⟨5, 200, 0⟩⟩
      ⟨some 7, none, 0, ⟨5, 200, 0⟩, ⟨11, 300, 0⟩⟩ true 300 0 10 7
      (by decide) rfl (by decide) (by decide)⟩

/-- C8: when the fee config carries no `transfer_fee_config_authority`, every
SetFee call fails with `NoAuthorityExists` — whatever the outcome of the
authority/witness validation and whatever the parameters — and the config is
unchanged. -/
theorem set_fee_no_authority_frozen (ext : TransferFeeConfig)
    (validate_owner_ok : Bool)
    (transfer_fee_basis_points maximum_fee epoch : Nat)
    (h : ext.transfer_fee_config_authority = none) :
    process_set_transfer_fee (some ext) validate_owner_ok
        transfer_fee_basis_points maximum_fee epoch =
      (Except.error TokenError.NoAuthorityExists, some ext) := by
  simp [process_set_transfer_fee, h]

/-- Witness for C8 at a concrete authority-free config. -/
theorem set_fee_no_authority_frozen_witness :
    (⟨none, some 8, 5, ⟨2, 50, 1⟩, ⟨3, 60, 2⟩⟩ :
        TransferFeeConfig).transfer_fee_config_authority = none ∧
    process_set_transfer_fee (some ⟨none, some 8, 5, ⟨2, 50, 1⟩, ⟨3, 60, 2⟩⟩)
        true 200 9 4 =
      (Except.error TokenError.NoAuthorityExists,
       some ⟨none, some 8, 5, ⟨2, 50, 1⟩, ⟨3, 60, 2⟩⟩) :=
  ⟨rfl, set_fee_no_authority_frozen ⟨none, some 8, 5, ⟨2, 50, 1⟩, ⟨3, 60, 2⟩⟩
    true 200 9 4 rfl⟩

/-- C9: for every program state, epoch, validation outcome and external
transfer routine, dispatching either withdraw instruction panics via
`unimplemented!()`: the outcome is `panicked`, which is distinct from success
and from every `TokenError` return, and the state is untouched. -/
theorem withdraw_unimplemented_panics (validate_owner_ok : Bool) (epoch : Nat)
    (process_transfer : ProgramState → ProgramOutcome × ProgramState)
    (st : ProgramState) :
    process_instruction true validate_owner_ok epoch process_transfer st
        TransferFeeInstruction.WithdrawWithheldTokensFromMint =
      (ProgramOutcome.panicked, st) ∧
    process_instruction true validate_owner_ok epoch process_transfer st
        TransferFeeInstruction.WithdrawWithheldTokensFromAccounts =
      (ProgramOutcome.panicked, st) ∧
    (∀ e : TokenError,
      ProgramOutcome.panicked ≠ ProgramOutcome.failure e) ∧
    ProgramOutcome.panicked ≠ ProgramOutcome.success :=
  ⟨rfl, rfl, fun e => by simp, by simp⟩

/-- C10: immediately after every successful InitializeFeeConfig, the mint's
aggregate `withheld_amount` is exactly 0, for every choice of authorities,
basis points, maximum fee and epoch. -/
theorem initialize_withheld_amount_zero (mint_ext : Option TransferFeeConfig)
    (cfgA wwA : Option Pubkey)
    (transfer_fee_basis_points maximum_fee epoch : Nat)
    (ext : TransferFeeConfig)
    (hok : process_initialize_transfer_fee_config mint_ext cfgA wwA
             transfer_fee_basis_points maximum_fee epoch =
             (Except.ok (), some ext)) :
    ext.withheld_amount = 0 := by
  obtain ⟨-, -, hext⟩ := process_initialize_ok_elim mint_ext cfgA wwA
    transfer_fee_basis_points maximum_fee epoch ext hok
  subst hext
  rfl

/-- Witness for C10 at a concrete successful initialization. -/
theorem initialize_withheld_amount_zero_witness :
    process_initialize_transfer_fee_config none (some 7) (some 8) 100 9 3 =
      (Except.ok (),
       some ⟨some 7, some 8, 0, ⟨3, 100, 9⟩, ⟨3, 100, 9⟩⟩) ∧
    (⟨some 7, some 8, 0, ⟨3, 100, 9⟩, ⟨3, 100, 9⟩⟩ :
        TransferFeeConfig).withheld_amount = 0 :=
  ⟨rfl, initialize_withheld_amount_zero none (some 7) (some 8) 100 9 3
    ⟨some 7, some 8, 0, ⟨3, 100, 9⟩, ⟨3, 100, 9⟩⟩ rfl⟩

end TransferFeeProcessor
